import Mathlib

/-!
Shallow embedding of the ATOMiK delta-state register
(src/sdk/generated/src/finance/trading/price_tick.rs).

The Rust struct `PriceTick` stores a `u64` base snapshot, a `u64` XOR
accumulator, a `VecDeque<u64>` of applied deltas, and a `usize` bound
`max_history`.  All `u64` values are below 2^64 and the only arithmetic
performed on them is bitwise XOR, which never leaves that range, so `Nat`
with `Nat.xor` is an exact model of the `u64` payloads; `usize` counts are
likewise modelled by `Nat`.  The `VecDeque` is modelled as a `List` whose
head is the deque front (oldest delta) and whose last element is the deque
back (newest delta): `push_back` appends, `pop_front` is `List.tail`,
`pop_back` is `List.getLast?` plus `List.dropLast`.
-/

namespace Atomik

/-- State of the `PriceTick` delta-state manager, field for field. -/
structure PriceTick where
  initial_state : Nat
  accumulator : Nat
  history : List Nat
  max_history : Nat
deriving DecidableEq, Repr

/-- Rust `PriceTick::new`: zero base, zero accumulator, empty history,
bound fixed at 4096.  It takes no parameter. -/
def PriceTick.new : PriceTick :=
  { initial_state := 0, accumulator := 0, history := [], max_history := 4096 }

/-- Rust `PriceTick::load`: set the base, reset the accumulator to 0 and
clear the history. -/
def PriceTick.load (s : PriceTick) (initial_state : Nat) : PriceTick :=
  { s with initial_state := initial_state, accumulator := 0, history := [] }

/-- Rust `PriceTick::accumulate`: push the delta to the back of the
history, pop the front element when the length exceeds `max_history`,
then XOR the delta into the accumulator. -/
def PriceTick.accumulate (s : PriceTick) (delta : Nat) : PriceTick :=
  let pushed := s.history ++ [delta]
  let kept := if pushed.length > s.max_history then pushed.tail else pushed
  { s with history := kept, accumulator := s.accumulator ^^^ delta }

/-- Rust `PriceTick::reconstruct`: `initial_state ^ accumulator`. -/
def PriceTick.reconstruct (s : PriceTick) : Nat :=
  s.initial_state ^^^ s.accumulator

/-- Rust `PriceTick::is_accumulator_zero`. -/
def PriceTick.is_accumulator_zero (s : PriceTick) : Bool :=
  s.accumulator == 0

/-- The `for _ in 0..actual_count` loop body of `PriceTick::rollback`:
pop `n` deltas from the back of the history, XORing each one back into
the accumulator; a pop on an empty deque yields `None` and does nothing. -/
def rollbackLoop : List Nat → Nat → Nat → List Nat × Nat
  | hist, acc, 0 => (hist, acc)
  | hist, acc, n + 1 =>
    match hist.getLast? with
    | none => rollbackLoop hist acc n
    | some d => rollbackLoop hist.dropLast (acc ^^^ d) n

/-- Rust `PriceTick::rollback`: undo `min count (history length)` deltas
from the back and return how many were undone, paired with the new state. -/
def PriceTick.rollback (s : PriceTick) (count : Nat) : Nat × PriceTick :=
  let actual_count := min count s.history.length
  let r := rollbackLoop s.history s.accumulator actual_count
  (actual_count, { s with history := r.1, accumulator := r.2 })

/-- Rust `PriceTick::get_accumulator`. -/
def PriceTick.get_accumulator (s : PriceTick) : Nat :=
  s.accumulator

/-- Rust `PriceTick::get_initial_state`. -/
def PriceTick.get_initial_state (s : PriceTick) : Nat :=
  s.initial_state

/-- Rust `PriceTick::history_size`. -/
def PriceTick.history_size (s : PriceTick) : Nat :=
  s.history.length

/-- Rust `impl Default for PriceTick`: delegates to `new`. -/
def PriceTick.default : PriceTick :=
  PriceTick.new

/-- XOR-fold of a list of deltas (the identity 0 is the base of the fold;
XOR is commutative and associative so the direction of the fold is
irrelevant to the value). -/
def xorFold (l : List Nat) : Nat :=
  l.foldr (fun a b => a ^^^ b) 0

/-- States reachable through the public API: constructed by `new` (or
`default`, which equals `new`) and then driven by any sequence of `load`,
`accumulate` and `rollback` calls. -/
inductive Reachable : PriceTick → Prop
  | new : Reachable PriceTick.new
  | load (s : PriceTick) (x : Nat) : Reachable s → Reachable (s.load x)
  | accumulate (s : PriceTick) (d : Nat) : Reachable s → Reachable (s.accumulate d)
  | rollback (s : PriceTick) (n : Nat) : Reachable s → Reachable (s.rollback n).2

/-- States reachable through the public API along histories in which no
`accumulate` call ever triggered an eviction: each `accumulate` happens
with spare capacity in the history buffer. -/
inductive ReachableNE : PriceTick → Prop
  | new : ReachableNE PriceTick.new
  | load (s : PriceTick) (x : Nat) : ReachableNE s → ReachableNE (s.load x)
  | accumulate (s : PriceTick) (d : Nat) : ReachableNE s →
      s.history.length < s.max_history → ReachableNE (s.accumulate d)
  | rollback (s : PriceTick) (n : Nat) : ReachableNE s → ReachableNE (s.rollback n).2

/-- Iterate `accumulate 0` a given number of times. -/
def accZeros : Nat → PriceTick → PriceTick
  | 0, s => s
  | n + 1, s => accZeros n (s.accumulate 0)

/-- The register after `new`, `load 0`, `accumulate 1`. -/
def regOne : PriceTick :=
  (PriceTick.new.load 0).accumulate 1

/-- The register after `new`, `load 0`, `accumulate 1` and then 4096
further `accumulate 0` calls: the last call evicts the delta `1` from
the history, but its contribution stays in the accumulator. -/
def regEvicted : PriceTick :=
  accZeros 4096 regOne

lemma xor_cancel_right (a d : Nat) : a ^^^ d ^^^ d = a := by
  rw [Nat.xor_assoc, Nat.xor_self, Nat.xor_zero]

lemma xorFold_nil : xorFold [] = 0 := rfl

lemma xorFold_cons (a : Nat) (l : List Nat) : xorFold (a :: l) = a ^^^ xorFold l := rfl

lemma xorFold_concat (l : List Nat) (d : Nat) : xorFold (l ++ [d]) = xorFold l ^^^ d := by
  induction l with
  | nil => simp [xorFold]
  | cons a t ih =>
      simp only [List.cons_append, xorFold_cons, ih, Nat.xor_assoc]

lemma xorFold_replicate_zero (n : Nat) : xorFold (List.replicate n 0) = 0 := by
  induction n with
  | zero => rfl
  | succ k ih => simp [List.replicate_succ, xorFold_cons, ih]

lemma rollbackLoop_nil (acc n : Nat) : rollbackLoop [] acc n = ([], acc) := by
  induction n with
  | zero => rfl
  | succ k ih => simpa [rollbackLoop] using ih

lemma rollbackLoop_concat (l : List Nat) (d acc n : Nat) :
    rollbackLoop (l ++ [d]) acc (n + 1) = rollbackLoop l (acc ^^^ d) n := by
  simp [rollbackLoop, List.getLast?_concat, List.dropLast_concat]

lemma rollbackLoop_full (hist : List Nat) (acc : Nat) :
    rollbackLoop hist acc hist.length = ([], acc ^^^ xorFold hist) := by
  induction hist using List.reverseRecOn generalizing acc with
  | nil => simp [rollbackLoop_nil, xorFold_nil]
  | append_singleton l d ih =>
      rw [List.length_append, List.length_singleton, rollbackLoop_concat, ih,
        xorFold_concat]
      rw [Nat.xor_assoc, Nat.xor_comm d (xorFold l)]

lemma rollbackLoop_inv (n : Nat) (hist : List Nat) (acc : Nat)
    (h : acc = xorFold hist) :
    (rollbackLoop hist acc n).2 = xorFold (rollbackLoop hist acc n).1 := by
  induction n generalizing hist acc with
  | zero => simpa [rollbackLoop] using h
  | succ k ih =>
      induction hist using List.reverseRecOn with
      | nil => rw [rollbackLoop_nil]; simpa [xorFold_nil] using h
      | append_singleton l d _ =>
          rw [rollbackLoop_concat]
          apply ih
          rw [h, xorFold_concat, xor_cancel_right]

lemma rollbackLoop_length_le (n : Nat) (hist : List Nat) (acc : Nat) :
    (rollbackLoop hist acc n).1.length ≤ hist.length := by
  induction n generalizing hist acc with
  | zero => exact Nat.le_refl _
  | succ k ih =>
      cases hgl : hist.getLast? with
      | none => rw [rollbackLoop, hgl]; exact ih hist acc
      | some d =>
          rw [rollbackLoop, hgl]
          calc (rollbackLoop hist.dropLast (acc ^^^ d) k).1.length
              ≤ hist.dropLast.length := ih _ _
            _ ≤ hist.length := by rw [List.length_dropLast]; exact Nat.sub_le _ _

lemma accumulate_no_evict (s : PriceTick) (d : Nat)
    (h : s.history.length < s.max_history) :
    s.accumulate d =
      { s with history := s.history ++ [d], accumulator := s.accumulator ^^^ d } := by
  simp only [PriceTick.accumulate, List.length_append, List.length_singleton]
  rw [if_neg]
  omega

lemma accZeros_succ (n : Nat) (s : PriceTick) :
    accZeros (n + 1) s = (accZeros n s).accumulate 0 := by
  induction n generalizing s with
  | zero => rfl
  | succ k ih => rw [accZeros, ih, accZeros]

lemma accZeros_reachable (n : Nat) (s : PriceTick) (h : Reachable s) :
    Reachable (accZeros n s) := by
  induction n generalizing s with
  | zero => exact h
  | succ k ih => exact ih _ (Reachable.accumulate s 0 h)

lemma accZeros_regOne (k : Nat) (hk : k ≤ 4095) :
    accZeros k regOne =
      { initial_state := 0, accumulator := 1,
        history := 1 :: List.replicate k 0, max_history := 4096 } := by
  induction k with
  | zero => decide
  | succ m ih =>
      have hm : m ≤ 4095 := Nat.le_of_succ_le hk
      rw [accZeros_succ, ih hm]
      have hlen : ((1 : Nat) :: List.replicate m 0).length < 4096 := by
        simp only [List.length_cons, List.length_replicate]
        omega
      rw [accumulate_no_evict _ _ hlen]
      simp [List.replicate_succ', Nat.xor_zero]

lemma regEvicted_eq :
    regEvicted =
      { initial_state := 0, accumulator := 1,
        history := List.replicate 4096 0, max_history := 4096 } := by
  rw [regEvicted, accZeros_succ, accZeros_regOne 4095 (Nat.le_refl _)]
  simp only [PriceTick.accumulate, List.cons_append, List.length_cons,
    List.length_append, List.length_replicate, List.length_singleton]
  rw [if_pos (by omega)]
  rw [List.tail_cons, Nat.xor_zero, ← List.replicate_succ']

lemma regEvicted_reachable : Reachable regEvicted :=
  accZeros_reachable 4096 regOne
    (Reachable.accumulate _ 1 (Reachable.load _ 0 Reachable.new))

lemma reachableNE_accumulator (s : PriceTick) (h : ReachableNE s) :
    s.accumulator = xorFold s.history := by
  induction h with
  | new => rfl
  | load t y _ _ => rfl
  | accumulate t d _ hlt ih =>
      rw [accumulate_no_evict t d hlt]
      show t.accumulator ^^^ d = xorFold (t.history ++ [d])
      rw [xorFold_concat, ih]
  | rollback t n _ ih =>
      show (rollbackLoop t.history t.accumulator (min n t.history.length)).2
          = xorFold (rollbackLoop t.history t.accumulator (min n t.history.length)).1
      exact rollbackLoop_inv _ _ _ ih

lemma regEvicted_rollback :
    regEvicted.rollback 4097 =
      (4096, { initial_state := 0, accumulator := 1,
               history := [], max_history := 4096 }) := by
  have hfull := rollbackLoop_full (List.replicate 4096 0) 1
  rw [List.length_replicate, xorFold_replicate_zero, Nat.xor_zero] at hfull
  rw [regEvicted_eq]
  simp only [PriceTick.rollback, List.length_replicate]
  rw [min_eq_right (by omega : (4096 : Nat) ≤ 4097), hfull]

/-- C1: for every reachable register state, `reconstruct()` returns exactly
`get_initial_state()` XOR `get_accumulator()`; this holds after any
sequence of `load`, `accumulate` and `rollback` calls. -/
theorem reconstruct_identity (s : PriceTick) (_h : Reachable s) :
    s.reconstruct = s.get_initial_state ^^^ s.get_accumulator := rfl

theorem reconstruct_identity_witness :
    Reachable PriceTick.new ∧
      PriceTick.new.reconstruct
        = PriceTick.new.get_initial_state ^^^ PriceTick.new.get_accumulator :=
  ⟨Reachable.new, reconstruct_identity PriceTick.new Reachable.new⟩

/-- C2, counterexample: the state reached by `load 0`, `accumulate 1` and
4096 further `accumulate 0` calls is reachable, yet its accumulator (1)
differs from the XOR-fold of its history (4096 zero deltas, folding to 0):
the eviction of the delta `1` removed it from the history without removing
its contribution from the accumulator. -/
theorem accumulator_fold_counterexample :
    Reachable regEvicted ∧ regEvicted.get_accumulator ≠ xorFold regEvicted.history := by
  refine ⟨regEvicted_reachable, ?_⟩
  rw [regEvicted_eq]
  show (1 : Nat) ≠ xorFold (List.replicate 4096 0)
  rw [xorFold_replicate_zero]
  decide

/-- C2, amended: for every register state reachable along a history in
which no `accumulate` call ever triggered an eviction (every `accumulate`
found spare capacity), the accumulator equals the XOR-fold of the elements
currently present in the history. -/
theorem accumulator_eq_fold_of_no_eviction (s : PriceTick) (h : ReachableNE s) :
    s.get_accumulator = xorFold s.history :=
  reachableNE_accumulator s h

theorem accumulator_eq_fold_of_no_eviction_witness :
    ReachableNE ((PriceTick.new.load 2).accumulate 3) ∧
      ((PriceTick.new.load 2).accumulate 3).get_accumulator
        = xorFold ((PriceTick.new.load 2).accumulate 3).history := by
  have h : ReachableNE ((PriceTick.new.load 2).accumulate 3) :=
    ReachableNE.accumulate _ 3 (ReachableNE.load _ 2 ReachableNE.new) (by decide)
  exact ⟨h, accumulator_eq_fold_of_no_eviction _ h⟩

/-- C3, counterexample: the reachable state `regEvicted` has
`history_size() = 4096` and `4096 < 4097`, and `rollback 4097` does return
4096 and does empty the history, but it leaves the accumulator at 1, not
at the value 0 it had at the last `load`: the evicted delta `1` can no
longer be undone. -/
theorem rollback_saturation_counterexample :
    Reachable regEvicted ∧ regEvicted.history_size = 4096 ∧ 4096 < 4097 ∧
      (regEvicted.rollback 4097).1 = 4096 ∧
      (regEvicted.rollback 4097).2.history_size = 0 ∧
      (regEvicted.rollback 4097).2.get_accumulator ≠ 0 := by
  refine ⟨regEvicted_reachable, ?_, by omega, ?_, ?_, ?_⟩
  · rw [regEvicted_eq]
    show (List.replicate 4096 (0 : Nat)).length = 4096
    rw [List.length_replicate]
  · rw [regEvicted_rollback]
  · rw [regEvicted_rollback]
    rfl
  · rw [regEvicted_rollback]
    decide

/-- C3, amended: for every register state reachable without any eviction
and every count `n` exceeding `history_size() = k`, `rollback n` returns
exactly `k`, leaves the history empty, and leaves the accumulator at the
identity 0, the value it had at the last `load`.  (When an eviction has
occurred since the last `load`, the accumulator instead retains the
contribution of the evicted deltas.) -/
theorem rollback_saturation_no_eviction (s : PriceTick) (n : Nat)
    (hne : ReachableNE s) (hlt : s.history_size < n) :
    (s.rollback n).1 = s.history_size ∧
      (s.rollback n).2.history_size = 0 ∧
      (s.rollback n).2.get_accumulator = 0 := by
  have hacc : s.accumulator = xorFold s.history := reachableNE_accumulator s hne
  have hmin : min n s.history.length = s.history.length :=
    min_eq_right (Nat.le_of_lt hlt)
  have hloop : rollbackLoop s.history s.accumulator (min n s.history.length)
      = ([], 0) := by
    rw [hmin, rollbackLoop_full, hacc, Nat.xor_self]
  refine ⟨hmin, ?_, ?_⟩
  · show (rollbackLoop s.history s.accumulator (min n s.history.length)).1.length = 0
    rw [hloop]
    rfl
  · show (rollbackLoop s.history s.accumulator (min n s.history.length)).2 = 0
    rw [hloop]

theorem rollback_saturation_no_eviction_witness :
    (ReachableNE ((PriceTick.new.load 7).accumulate 5) ∧
        ((PriceTick.new.load 7).accumulate 5).history_size < 3) ∧
      (((PriceTick.new.load 7).accumulate 5).rollback 3).1
          = ((PriceTick.new.load 7).accumulate 5).history_size ∧
        (((PriceTick.new.load 7).accumulate 5).rollback 3).2.history_size = 0 ∧
        (((PriceTick.new.load 7).accumulate 5).rollback 3).2.get_accumulator = 0 := by
  have h : ReachableNE ((PriceTick.new.load 7).accumulate 5) :=
    ReachableNE.accumulate _ 5 (ReachableNE.load _ 7 ReachableNE.new) (by decide)
  exact ⟨⟨h, by decide⟩, rollback_saturation_no_eviction _ 3 h (by decide)⟩

/-- C4: for every delta `d` and every register state whose history has
spare capacity, `accumulate d` followed immediately by `rollback 1`
returns 1 from the rollback and restores `get_accumulator()` and
`reconstruct()` to their pre-accumulate values. -/
theorem rollback_accumulate_inverse (s : PriceTick) (d : Nat)
    (h : s.history_size < s.max_history) :
    ((s.accumulate d).rollback 1).1 = 1 ∧
      ((s.accumulate d).rollback 1).2.get_accumulator = s.get_accumulator ∧
      ((s.accumulate d).rollback 1).2.reconstruct = s.reconstruct := by
  rw [accumulate_no_evict s d h]
  have h1 : (1 : Nat) ≤ (s.history ++ [d]).length := by
    rw [List.length_append, List.length_singleton]
    omega
  have hmin : min 1 (s.history ++ [d]).length = 1 := min_eq_left h1
  have hloop : rollbackLoop (s.history ++ [d]) (s.accumulator ^^^ d) 1
      = (s.history, s.accumulator) := by
    rw [rollbackLoop_concat]
    show (s.history, s.accumulator ^^^ d ^^^ d) = _
    rw [xor_cancel_right]
  refine ⟨?_, ?_, ?_⟩
  · show min 1 (s.history ++ [d]).length = 1
    exact hmin
  · show (rollbackLoop (s.history ++ [d]) (s.accumulator ^^^ d)
        (min 1 (s.history ++ [d]).length)).2 = s.accumulator
    rw [hmin, hloop]
  · show s.initial_state ^^^ (rollbackLoop (s.history ++ [d]) (s.accumulator ^^^ d)
        (min 1 (s.history ++ [d]).length)).2 = s.initial_state ^^^ s.accumulator
    rw [hmin, hloop]

theorem rollback_accumulate_inverse_witness :
    (PriceTick.new.load 9).history_size < (PriceTick.new.load 9).max_history ∧
      (((PriceTick.new.load 9).accumulate 4).rollback 1).1 = 1 ∧
        (((PriceTick.new.load 9).accumulate 4).rollback 1).2.get_accumulator
            = (PriceTick.new.load 9).get_accumulator ∧
          (((PriceTick.new.load 9).accumulate 4).rollback 1).2.reconstruct
            = (PriceTick.new.load 9).reconstruct :=
  ⟨by decide, rollback_accumulate_inverse (PriceTick.new.load 9) 4 (by decide)⟩

/-- C5: for every value `x` and every register state, immediately after
`load x` the register satisfies `get_initial_state() = x`,
`get_accumulator() = 0`, `history_size() = 0` and `reconstruct() = x`. -/
theorem load_reset (s : PriceTick) (x : Nat) :
    (s.load x).get_initial_state = x ∧ (s.load x).get_accumulator = 0 ∧
      (s.load x).history_size = 0 ∧ (s.load x).reconstruct = x := by
  refine ⟨rfl, rfl, rfl, ?_⟩
  show x ^^^ 0 = x
  exact Nat.xor_zero x

/-- C6: after any sequence of operations starting from a newly constructed
register, `history_size()` is at most `max_history`; in particular no
`accumulate` call can leave the history length above the bound. -/
theorem history_bound (s : PriceTick) (h : Reachable s) :
    s.history_size ≤ s.max_history := by
  induction h with
  | new => exact Nat.zero_le _
  | load t y _ _ => exact Nat.zero_le _
  | accumulate t d _ ih =>
      show (if (t.history ++ [d]).length > t.max_history
          then (t.history ++ [d]).tail else t.history ++ [d]).length ≤ t.max_history
      have iht : t.history.length ≤ t.max_history := ih
      split
      · rename_i hgt
        rw [List.length_tail, List.length_append, List.length_singleton]
        omega
      · rename_i hle
        rw [List.length_append, List.length_singleton] at hle ⊢
        omega
  | rollback t n _ ih =>
      show (rollbackLoop t.history t.accumulator (min n t.history.length)).1.length
          ≤ t.max_history
      exact Nat.le_trans (rollbackLoop_length_le _ _ _) ih

theorem history_bound_witness :
    Reachable PriceTick.new ∧ PriceTick.new.history_size ≤ PriceTick.new.max_history :=
  ⟨Reachable.new, history_bound PriceTick.new Reachable.new⟩

/-- C7: for every delta `d`, `accumulate d` appends `d` to the tail of the
history and sets the accumulator to its old value XOR `d`; when the append
pushes the length above `max_history`, the oldest (head) element is
evicted from the history without altering the accumulator, so the new
accumulator is still the old accumulator XOR `d` in both cases. -/
theorem accumulate_appends_and_evicts_head (s : PriceTick) (d : Nat) :
    (s.accumulate d).get_accumulator = s.get_accumulator ^^^ d ∧
      (s.accumulate d).history =
        (if s.history.length < s.max_history then s.history ++ [d]
         else (s.history ++ [d]).tail) := by
  refine ⟨rfl, ?_⟩
  show (if (s.history ++ [d]).length > s.max_history
      then (s.history ++ [d]).tail else s.history ++ [d]) = _
  rw [List.length_append, List.length_singleton]
  rcases Nat.lt_or_ge s.history.length s.max_history with hlt | hge
  · rw [if_neg (by omega), if_pos hlt]
  · rw [if_pos (by omega), if_neg (by omega)]

/-- C8: for every delta `d` and every state in which the two calls trigger
no eviction (two slots of spare capacity) and no intervening `load`
occurs, applying `accumulate d` twice leaves `get_accumulator()` and
`reconstruct()` at their values from before the pair, and
`is_accumulator_zero()` holds afterwards if it held before. -/
theorem accumulate_self_inverse (s : PriceTick) (d : Nat)
    (_h : s.history_size + 2 ≤ s.max_history) :
    ((s.accumulate d).accumulate d).get_accumulator = s.get_accumulator ∧
      ((s.accumulate d).accumulate d).reconstruct = s.reconstruct ∧
      (s.is_accumulator_zero = true →
        ((s.accumulate d).accumulate d).is_accumulator_zero = true) := by
  have hacc : ((s.accumulate d).accumulate d).accumulator = s.accumulator := by
    show s.accumulator ^^^ d ^^^ d = s.accumulator
    exact xor_cancel_right _ _
  refine ⟨hacc, ?_, ?_⟩
  · show s.initial_state ^^^ (s.accumulator ^^^ d ^^^ d) = s.initial_state ^^^ s.accumulator
    rw [xor_cancel_right]
  · intro hz
    simp only [PriceTick.is_accumulator_zero, beq_iff_eq] at hz ⊢
    rw [hacc]
    exact hz

theorem accumulate_self_inverse_witness :
    (PriceTick.new.load 1).history_size + 2 ≤ (PriceTick.new.load 1).max_history ∧
      (((PriceTick.new.load 1).accumulate 6).accumulate 6).get_accumulator
          = (PriceTick.new.load 1).get_accumulator ∧
        (((PriceTick.new.load 1).accumulate 6).accumulate 6).reconstruct
            = (PriceTick.new.load 1).reconstruct ∧
          ((PriceTick.new.load 1).is_accumulator_zero = true →
            (((PriceTick.new.load 1).accumulate 6).accumulate 6).is_accumulator_zero = true) :=
  ⟨by decide, accumulate_self_inverse (PriceTick.new.load 1) 6 (by decide)⟩

/-- C9: `load` is the only operation that changes the base field: for
every delta `d` and count `n`, `accumulate d` and `rollback n` leave
`get_initial_state()` unchanged (the remaining operations are pure reads
that do not modify the state at all). -/
theorem load_only_changes_base (s : PriceTick) (d n : Nat) :
    (s.accumulate d).get_initial_state = s.get_initial_state ∧
      (s.rollback n).2.get_initial_state = s.get_initial_state :=
  ⟨rfl, rfl⟩

/-- C10: every register reachable through the public API has `max_history`
equal to 4096: `new()` accepts no history-bound parameter and fixes it at
4096, `default()` produces a state identical to `new()`, and no operation
(`load`, `accumulate`, `rollback`) ever modifies `max_history`. -/
theorem max_history_fixed (s : PriceTick) (d n x : Nat) (h : Reachable s) :
    s.max_history = 4096 ∧ PriceTick.default = PriceTick.new ∧
      (s.load x).max_history = s.max_history ∧
      (s.accumulate d).max_history = s.max_history ∧
      (s.rollback n).2.max_history = s.max_history := by
  refine ⟨?_, rfl, rfl, rfl, rfl⟩
  induction h with
  | new => rfl
  | load t y _ ih => exact ih
  | accumulate t e _ ih => exact ih
  | rollback t m _ ih => exact ih

theorem max_history_fixed_witness :
    Reachable PriceTick.new ∧
      (PriceTick.new.max_history = 4096 ∧ PriceTick.default = PriceTick.new ∧
        (PriceTick.new.load 0).max_history = PriceTick.new.max_history ∧
        (PriceTick.new.accumulate 0).max_history = PriceTick.new.max_history ∧
        (PriceTick.new.rollback 0).2.max_history = PriceTick.new.max_history) :=
  ⟨Reachable.new, max_history_fixed PriceTick.new 0 0 0 Reachable.new⟩

end Atomik
